import Mathlib

/-!
# Verification of the tilez game server against its specification

Shallow embedding of the authoritative game server (`src/bin/server.rs`) and
the terminal client (`src/bin/client.rs`) of the two-player piece-placing
game, together with proofs of the testable properties stated in the
specification.

Modelling conventions:
* `f32` values are modelled as real numbers (`ℝ`) inside the game state and
  physics, and as rationals (`ℚ`) inside the wire codec (wire text carries
  decimal literals, which are rationals; `f32` rounding is elided — the
  codec claims concern exactly representable values).
* `u8`/`usize` are modelled as `ℕ` (the program never exercises overflow:
  player slots are 0/1 and piece indices are bounded by the list length).
* Rust's in-place mutation of `GameState` becomes explicit state passing:
  `place`/`shoot` return `Except Rejection GameState`; the session loop
  keeps the old state when a call rejects, exactly as the caller's `state`
  variable is left untouched by an early `return Err(..)` in Rust.
* The `&'static str` error messages of `server.rs` are modelled as the
  enumeration `Rejection` plus the message table `Rejection.msg`.
-/

namespace SebMulGame

/-- A placed piece (`struct Piece` of `server.rs`): owner slot and circle
geometry. -/
structure Piece where
  owner : ℕ
  x : ℝ
  y : ℝ
  radius : ℝ

/-- The authoritative game state (`struct GameState` of `server.rs`): the
ordered piece list and whose turn it is (0 or 1). -/
structure GameState where
  pieces : List Piece
  turn : ℕ

/-- `GameState::new()` — empty board, player 0 to move. -/
def GameState.new : GameState := ⟨[], 0⟩

/-- The reasons a command is not applied.  The first six are the protocol
rejections produced by `GameState::place`/`GameState::shoot`; the last is
produced by the session loop when a line fails to decode. -/
inductive Rejection where
  | notYourTurn
  | nonPositiveRadius
  | overlap
  | zeroDirection
  | indexOutOfRange
  | notOwner
  | unrecognisedCommand
  deriving DecidableEq

/-- The exact `&'static str` carried by each `Err(..)` in `server.rs`
(the session writes `ERROR <msg>` to the offending client). -/
def Rejection.msg : Rejection → String
  | .notYourTurn => "not your turn"
  | .nonPositiveRadius => "radius must be positive"
  | .overlap => "overlaps an existing piece"
  | .zeroDirection => "direction vector must be non-zero"
  | .indexOutOfRange => "piece index out of range"
  | .notOwner => "that piece does not belong to you"
  | .unrecognisedCommand => "unrecognised command"

/-- `f32::EPSILON` = 2⁻²³, the threshold of the zero-direction check in
`GameState::shoot`. -/
noncomputable def f32Epsilon : ℝ := 1 / 2 ^ 23

section
open Classical

/-- `GameState::place` (`server.rs` lines 160–176): turn check, positive
radius check, strict-overlap check against every existing piece, then
append the new piece and flip the turn. -/
noncomputable def GameState.place (s : GameState) (owner : ℕ) (x y radius : ℝ) :
    Except Rejection GameState :=
  if owner ≠ s.turn then .error .notYourTurn
  else if radius ≤ 0 then .error .nonPositiveRadius
  else if ∃ p ∈ s.pieces, Real.sqrt ((p.x - x) ^ 2 + (p.y - y) ^ 2) < p.radius + radius then
    .error .overlap
  else .ok ⟨s.pieces ++ [⟨owner, x, y, radius⟩], 1 - s.turn⟩

/-- `GameState::shoot` (`server.rs` lines 178–202): turn check, then the
zero-direction (epsilon) check on `len = sqrt(dx²+dy²)`, then the index
check (`pieces.get(index)`), then the ownership check; on success the
piece is moved by the normalised direction scaled by `force` and the turn
flips. -/
noncomputable def GameState.shoot (s : GameState) (owner index : ℕ) (dx dy force : ℝ) :
    Except Rejection GameState :=
  if owner ≠ s.turn then .error .notYourTurn
  else
    let len := Real.sqrt (dx * dx + dy * dy)
    if len < f32Epsilon then .error .zeroDirection
    else
      match s.pieces.get? index with
      | none => .error .indexOutOfRange
      | some piece =>
        if piece.owner ≠ owner then .error .notOwner
        else
          .ok ⟨s.pieces.set index
                { piece with x := piece.x + dx / len * force, y := piece.y + dy / len * force },
              1 - s.turn⟩

end

/-- `render_state()` of the specification: the full order-preserving
snapshot `(owner, x, y, radius)` of the board (the data serialised by
`GameState::state_line`). -/
def GameState.render_state (s : GameState) : List (ℕ × ℝ × ℝ × ℝ) :=
  s.pieces.map fun p => (p.owner, p.x, p.y, p.radius)

/-- One request to the game state: a `PLACE` or a `SHOOT`, as dispatched by
the session loop. -/
inductive Call where
  | place (owner : ℕ) (x y radius : ℝ)
  | shoot (owner index : ℕ) (dx dy force : ℝ)

/-- Whether the call is a placement. -/
def Call.isPlace : Call → Bool
  | .place _ _ _ _ => true
  | .shoot _ _ _ _ _ => false

/-- Dispatch a call to the corresponding `GameState` mutator. -/
noncomputable def applyCall (s : GameState) : Call → Except Rejection GameState
  | .place owner x y radius => s.place owner x y radius
  | .shoot owner index dx dy force => s.shoot owner index dx dy force

/-- Run a sequence of calls the way the session loop does: an accepted call
replaces the state, a rejected call leaves it as it was.  Returns the final
state, the number of accepted calls, and the number of accepted `place`
calls. -/
noncomputable def runCalls : GameState → List Call → GameState × ℕ × ℕ
  | s, [] => (s, 0, 0)
  | s, c :: cs =>
    match applyCall s c with
    | .ok s' =>
      let r := runCalls s' cs
      (r.1, r.2.1 + 1, r.2.2 + (if c.isPlace then 1 else 0))
    | .error _ => runCalls s cs

/-- Drop leading whitespace characters. -/
def dropWs : List Char → List Char
  | [] => []
  | c :: cs => if c.isWhitespace then dropWs cs else c :: cs

/-- Model of `str::trim`: drop trailing, then leading, whitespace.
(`Char.isWhitespace` covers the ASCII whitespace the protocol can emit.) -/
def trimStr (s : String) : String :=
  String.mk (dropWs (dropWs s.toList.reverse).reverse)

/-- Accumulator for `splitWhitespace`: the pending token is kept reversed. -/
def tokenizeAux : List Char → List Char → List String
  | [], acc => if acc = [] then [] else [String.mk acc.reverse]
  | c :: cs, acc =>
    if c.isWhitespace then
      if acc = [] then tokenizeAux cs [] else String.mk acc.reverse :: tokenizeAux cs []
    else tokenizeAux cs (c :: acc)

/-- Model of `str::split_whitespace`: the maximal non-whitespace runs, in
order, with no empty tokens. -/
def splitWhitespace (s : String) : List String := tokenizeAux s.toList []

/-- Read a maximal digit prefix: returns the accumulated value, the number
of digits read, and the remaining characters. -/
def readDigits : List Char → ℕ → ℕ → ℕ × ℕ × List Char
  | [], acc, k => (acc, k, [])
  | c :: cs, acc, k =>
    if c.isDigit then readDigits cs (acc * 10 + (c.toNat - 48)) (k + 1)
    else (acc, k, c :: cs)

/-- Model of `str::parse::<f32>` restricted to finite decimal literals
(optional sign, digits, optional fraction, optional exponent); the special
spellings `inf`/`NaN` and `f32` rounding are elided — the wire values the
claims concern are exactly representable. -/
def parseDec (cs : List Char) : Option ℚ :=
  let signRest : ℚ × List Char :=
    match cs with
    | '-' :: rest => (-1, rest)
    | '+' :: rest => (1, rest)
    | _ => (1, cs)
  let ipRes := readDigits signRest.2 0 0
  let frRes : ℕ × ℕ × List Char :=
    match ipRes.2.2 with
    | '.' :: rest => readDigits rest 0 0
    | _ => (0, 0, ipRes.2.2)
  if ipRes.2.1 = 0 ∧ frRes.2.1 = 0 then none
  else
    let mant : ℚ := signRest.1 * ((ipRes.1 : ℚ) + (frRes.1 : ℚ) / 10 ^ frRes.2.1)
    match frRes.2.2 with
    | [] => some mant
    | e :: rest =>
      if e = 'e' ∨ e = 'E' then
        let esignRest : ℤ × List Char :=
          match rest with
          | '-' :: r => (-1, r)
          | '+' :: r => (1, r)
          | _ => (1, rest)
        let exRes := readDigits esignRest.2 0 0
        if exRes.2.1 = 0 ∨ exRes.2.2 ≠ [] then none
        else some (mant * (10 : ℚ) ^ (esignRest.1 * (exRes.1 : ℤ)))
      else none

/-- `str::parse::<f32>` on a string, via `parseDec`. -/
def parseF32 (s : String) : Option ℚ :=
  parseDec s.toList

/-- Model of `str::parse` at the unsigned integer types (`usize`, `u8`):
an optional `+` then digits.  Overflow is elided — the program's indices
are bounded by the board and owners are 0/1. -/
def parseNatStr (s : String) : Option ℕ :=
  let cs :=
    match s.toList with
    | '+' :: rest => rest
    | cs => cs
  let r := readDigits cs 0 0
  if r.2.1 = 0 ∨ r.2.2 ≠ [] then none else some r.1

/-- The decoded client command (`enum ClientCmd` of `server.rs`), its
numeric fields as the rationals the decimal wire text denotes. -/
inductive ClientCmd where
  | place (x y radius : ℚ)
  | shoot (index : ℕ) (dx dy force : ℚ)
  deriving DecidableEq

/-- `ClientCmd::parse` (`server.rs` lines 107–123): the first token picks
the variant, the following tokens fill the fields (extra tokens are
ignored); any missing or unparseable field, or an unknown keyword, yields
`none`. -/
def ClientCmd.parse (line : String) : Option ClientCmd :=
  match splitWhitespace line with
  | [] => none
  | kw :: rest =>
    if kw = "PLACE" then
      match rest with
      | a :: b :: c :: _ =>
        match parseF32 a, parseF32 b, parseF32 c with
        | some x, some y, some radius => some (.place x y radius)
        | _, _, _ => none
      | _ => none
    else if kw = "SHOOT" then
      match rest with
      | i :: a :: b :: c :: _ =>
        match parseNatStr i, parseF32 a, parseF32 b, parseF32 c with
        | some index, some dx, some dy, some force => some (.shoot index dx dy force)
        | _, _, _, _ => none
      | _ => none
    else none

/-- Digits of a positive natural, most significant first; `fuel` bounds the
recursion depth (structural, so concrete values reduce in the kernel). -/
def natDigitsAux : ℕ → ℕ → List Char
  | 0, _ => []
  | fuel + 1, n =>
    if n = 0 then [] else natDigitsAux fuel (n / 10) ++ [Char.ofNat (48 + n % 10)]

/-- Decimal rendering of a natural number. -/
def natToStr (n : ℕ) : String :=
  if n = 0 then "0" else String.mk (natDigitsAux (n + 1) n)

/-- Zero-pad a 3-decimal fraction part to width 3. -/
def pad3 (k : ℕ) : String :=
  if k < 10 then "00" ++ natToStr k
  else if k < 100 then "0" ++ natToStr k
  else natToStr k

/-- Fixed-point rendering of `n/1000` with exactly three decimals. -/
def fmt3Int (n : ℤ) : String :=
  (if n < 0 then "-" else "") ++ natToStr (n.natAbs / 1000) ++ "." ++ pad3 (n.natAbs % 1000)

/-- Model of Rust's `{:.3}` formatting: round to the nearest thousandth and
print with exactly three decimals.  (On the exactly-representable values
the claims concern, no rounding tie arises.) -/
def fmt3 (q : ℚ) : String := fmt3Int (round (q * 1000))

/-- A piece as the wire codec sees it, numeric fields as rationals: the
`ℚ`-mirror of `Piece` for exactly-representable coordinates. -/
structure PieceQ where
  owner : ℕ
  x : ℚ
  y : ℚ
  radius : ℚ
  deriving DecidableEq

/-- `impl Display for Piece` (`server.rs` lines 138–142):
`<owner> <x:.3> <y:.3> <radius:.3>`. -/
def PieceQ.display (p : PieceQ) : String :=
  natToStr p.owner ++ " " ++ fmt3 p.x ++ " " ++ fmt3 p.y ++ " " ++ fmt3 p.radius

/-- `Vec::join(" ")`. -/
def joinSpace : List String → String
  | [] => ""
  | [s] => s
  | s :: rest => s ++ " " ++ joinSpace rest

/-- `GameState::state_line` (`server.rs` lines 155–158):
`STATE <n> <piece>…<piece>\n`. -/
def state_lineQ (pieces : List PieceQ) : String :=
  "STATE " ++ natToStr pieces.length ++ " " ++ joinSpace (pieces.map PieceQ.display) ++ "\n"

/-- A board entry as the client stores it (`struct Piece` of `client.rs`):
the running index is materialised as a field. -/
structure ClientPiece where
  index : ℕ
  owner : ℕ
  x : ℚ
  y : ℚ
  radius : ℚ
  deriving DecidableEq

/-- The piece-reading loop of `BoardState::parse`: read `n` groups of four
tokens, assigning indices from `idx` upward; any missing or unparseable
token fails the whole parse. -/
def parsePieces : ℕ → ℕ → List String → Option (List ClientPiece)
  | 0, _, _ => some []
  | n + 1, idx, toks =>
    match toks with
    | o :: a :: b :: c :: rest =>
      match parseNatStr o, parseF32 a, parseF32 b, parseF32 c with
      | some owner, some x, some y, some radius =>
        match parsePieces n (idx + 1) rest with
        | some tail => some (⟨idx, owner, x, y, radius⟩ :: tail)
        | none => none
      | _, _, _, _ => none
    | _ => none

/-- `BoardState::parse` (`client.rs` lines 69–83): the payload after
`STATE ` — a count then that many `owner x y radius` groups (trailing
tokens are ignored). -/
def BoardState.parse (line : String) : Option (List ClientPiece) :=
  match splitWhitespace line with
  | [] => none
  | nTok :: rest =>
    match parseNatStr nTok with
    | some n => parsePieces n 0 rest
    | none => none

/-- Character-list core of `str::strip_prefix`. -/
def stripChars : List Char → List Char → Option (List Char)
  | [], cs => some cs
  | _ :: _, [] => none
  | p :: ps, c :: cs => if c = p then stripChars ps cs else none

/-- Model of `str::strip_prefix`. -/
def stripPrefixStr (pre s : String) : Option String :=
  match stripChars pre.toList s.toList with
  | some rest => some (String.mk rest)
  | none => none

/-- The client's handling of a received `STATE` line (`ServerMsg::parse`,
`client.rs` lines 140–144): trim the raw line, strip the `STATE ` prefix,
parse the payload as a board. -/
def decodeStateLine (raw : String) : Option (List ClientPiece) :=
  match stripPrefixStr "STATE " (trimStr raw) with
  | some rest => BoardState.parse rest
  | none => none

/-- ASCII uppercasing, the model of `str::to_ascii_uppercase`. -/
def toUpperStr (s : String) : String :=
  String.mk (s.toList.map Char.toUpper)

/-- A validated command of the terminal client (`enum Cmd` of
`client.rs`). -/
inductive CmdC where
  | place (x y radius : ℚ)
  | shoot (index : ℕ) (dx dy force : ℚ)
  deriving DecidableEq

/-- An ASCII single quote, kept out of string literals. -/
def squote : String := String.singleton (Char.ofNat 39)

/-- `parse_f32` of `client.rs` (lines 226–234): take the next token and
parse it, with a named error message for each failure mode. -/
def parseF32Tok (toks : List String) (name : String) : Except String (ℚ × List String) :=
  match toks with
  | [] => .error ("missing " ++ name)
  | s :: rest =>
    match parseF32 s with
    | some q => .ok (q, rest)
    | none => .error (name ++ " must be a number")

/-- `Cmd::parse` (`client.rs` lines 185–213): case-insensitive keyword,
field-by-field parsing, and the client-side range checks `radius > 0` and
`force > 0`. -/
def CmdC.parse (raw : String) : Except String CmdC :=
  match splitWhitespace raw with
  | [] => .error "empty input"
  | kw :: rest =>
    let kwU := toUpperStr kw
    if kwU = "PLACE" then
      match parseF32Tok rest "x" with
      | .error e => .error e
      | .ok (x, rest1) =>
        match parseF32Tok rest1 "y" with
        | .error e => .error e
        | .ok (y, rest2) =>
          match parseF32Tok rest2 "radius" with
          | .error e => .error e
          | .ok (radius, _) =>
            if radius ≤ 0 then .error "radius must be > 0"
            else .ok (.place x y radius)
    else if kwU = "SHOOT" then
      match rest with
      | [] => .error "missing piece index"
      | iTok :: rest1 =>
        match parseNatStr iTok with
        | none => .error "piece index must be a whole number"
        | some index =>
          match parseF32Tok rest1 "dx" with
          | .error e => .error e
          | .ok (dx, rest2) =>
            match parseF32Tok rest2 "dy" with
            | .error e => .error e
            | .ok (dy, rest3) =>
              match parseF32Tok rest3 "force" with
              | .error e => .error e
              | .ok (force, _) =>
                if force ≤ 0 then .error "force must be > 0"
                else .ok (.shoot index dx dy force)
    else .error ("unknown command " ++ squote ++ kwU ++ squote)

/-- One server-to-client protocol line, abstracted from its wire text:
`OK`, `STATE …`, `YOUR_TURN`, `OPPONENT_TURN`, or `ERROR <reason>`. -/
inductive OutMsg where
  | ok
  | state (pieces : List (ℕ × ℝ × ℝ × ℝ))
  | yourTurn
  | opponentTurn
  | error (reason : String)

/-- Decode a trimmed line and apply it to the game state (`run_game`,
`server.rs` lines 264–277): an undecodable line becomes the
`unrecognised command` error after the `InvalidCmd` log. -/
noncomputable def decodeApply (st : GameState) (player : ℕ) (trimmed : String) :
    Except Rejection GameState :=
  match ClientCmd.parse trimmed with
  | some (.place x y radius) => st.place player (x : ℝ) (y : ℝ) (radius : ℝ)
  | some (.shoot index dx dy force) => st.shoot player index (dx : ℝ) (dy : ℝ) (force : ℝ)
  | none => .error .unrecognisedCommand

/-- One iteration of the session loop on a received line (`run_game`,
`server.rs` lines 253–301): the out-of-turn check precedes decoding and
answers the sender alone; a rejection answers the sender alone and keeps
the state; an accepted command broadcasts `OK`, the new state, and the
turn signals, in the code's write order. -/
noncomputable def sessionStep (st : GameState) (player : ℕ) (line : String) :
    GameState × List (ℕ × OutMsg) :=
  let trimmed := trimStr line
  if player ≠ st.turn then
    (st, [(player, .error "not your turn")])
  else
    match decodeApply st player trimmed with
    | .ok st' =>
      (st', [(0, .ok), (1, .ok), (0, .state st'.render_state), (1, .state st'.render_state)] ++
        (if st'.turn = 0 then [(0, .yourTurn), (1, .opponentTurn)]
         else [(0, .opponentTurn), (1, .yourTurn)]))
    | .error r => (st, [(player, .error r.msg)])

/-- Inversion for a successful `place`: all three checks passed and the
result is the old board with the new piece appended and the turn flipped. -/
theorem GameState.place_ok {s : GameState} {owner : ℕ} {x y radius : ℝ} {s' : GameState}
    (h : s.place owner x y radius = .ok s') :
    owner = s.turn ∧ 0 < radius ∧
      (∀ p ∈ s.pieces, p.radius + radius ≤ Real.sqrt ((p.x - x) ^ 2 + (p.y - y) ^ 2)) ∧
      s' = ⟨s.pieces ++ [⟨owner, x, y, radius⟩], 1 - s.turn⟩ := by
  unfold GameState.place at h
  split_ifs at h with h1 h2 h3
  injection h with h4
  push_neg at h3
  exact ⟨not_not.mp h1, not_le.mp h2, h3, h4.symm⟩

/-- Evaluation rule for a successful `place`. -/
theorem GameState.place_ok_of {s : GameState} {owner : ℕ} {x y radius : ℝ}
    (h1 : owner = s.turn) (h2 : 0 < radius)
    (h3 : ∀ p ∈ s.pieces, p.radius + radius ≤ Real.sqrt ((p.x - x) ^ 2 + (p.y - y) ^ 2)) :
    s.place owner x y radius = .ok ⟨s.pieces ++ [⟨owner, x, y, radius⟩], 1 - s.turn⟩ := by
  have h3' : ¬∃ p ∈ s.pieces, Real.sqrt ((p.x - x) ^ 2 + (p.y - y) ^ 2) < p.radius + radius := by
    push_neg
    exact h3
  unfold GameState.place
  rw [if_neg (not_not.mpr h1), if_neg (not_le.mpr h2), if_neg h3']

/-- With the turn and radius checks passing, `place` rejects with `Overlap`
exactly when some existing piece is strictly closer than the sum of radii. -/
theorem GameState.place_overlap_iff {s : GameState} {owner : ℕ} {x y radius : ℝ}
    (h1 : owner = s.turn) (h2 : 0 < radius) :
    s.place owner x y radius = .error .overlap ↔
      ∃ p ∈ s.pieces, Real.sqrt ((p.x - x) ^ 2 + (p.y - y) ^ 2) < p.radius + radius := by
  unfold GameState.place
  rw [if_neg (not_not.mpr h1), if_neg (not_le.mpr h2)]
  split_ifs with h3
  · simpa using h3
  · simpa using h3

/-- Inversion for a successful `shoot`: all four checks passed, and the
result sets the indexed piece to its shifted copy and flips the turn. -/
theorem GameState.shoot_ok {s : GameState} {owner index : ℕ} {dx dy force : ℝ} {s' : GameState}
    (h : s.shoot owner index dx dy force = .ok s') :
    owner = s.turn ∧ f32Epsilon ≤ Real.sqrt (dx * dx + dy * dy) ∧
      ∃ piece, s.pieces.get? index = some piece ∧ piece.owner = owner ∧
        s' = ⟨s.pieces.set index
                { piece with
                    x := piece.x + dx / Real.sqrt (dx * dx + dy * dy) * force,
                    y := piece.y + dy / Real.sqrt (dx * dx + dy * dy) * force },
              1 - s.turn⟩ := by
  simp only [GameState.shoot] at h
  split_ifs at h with h1 h2
  rcases hg : s.pieces.get? index with _ | piece
  all_goals rw [hg] at h
  · exact Except.noConfusion h
  · dsimp only at h
    split_ifs at h with h3
    injection h with h4
    exact ⟨not_not.mp h1, not_lt.mp h2, piece, rfl, not_not.mp h3, h4.symm⟩

/-- Evaluation rule for a successful `shoot`. -/
theorem GameState.shoot_ok_of {s : GameState} {owner index : ℕ} {dx dy force : ℝ} {piece : Piece}
    (h1 : owner = s.turn) (h2 : f32Epsilon ≤ Real.sqrt (dx * dx + dy * dy))
    (hg : s.pieces.get? index = some piece) (h3 : piece.owner = owner) :
    s.shoot owner index dx dy force =
      .ok ⟨s.pieces.set index
            { piece with
                x := piece.x + dx / Real.sqrt (dx * dx + dy * dy) * force,
                y := piece.y + dy / Real.sqrt (dx * dx + dy * dy) * force },
          1 - s.turn⟩ := by
  simp only [GameState.shoot]
  rw [if_neg (not_not.mpr h1), if_neg (not_lt.mpr h2), hg]
  dsimp only
  rw [if_neg (not_not.mpr h3)]

/-- The epsilon check fires before any look at the board: a near-zero
direction yields `ZeroDirection` whatever the index. -/
theorem GameState.shoot_zeroDirection_of {s : GameState} {owner index : ℕ} {dx dy force : ℝ}
    (h1 : owner = s.turn) (h2 : Real.sqrt (dx * dx + dy * dy) < f32Epsilon) :
    s.shoot owner index dx dy force = .error .zeroDirection := by
  simp only [GameState.shoot]
  rw [if_neg (not_not.mpr h1), if_pos h2]

/-- With the turn and epsilon checks passing, an out-of-range index yields
`IndexOutOfRange`. -/
theorem GameState.shoot_indexOutOfRange_of {s : GameState} {owner index : ℕ} {dx dy force : ℝ}
    (h1 : owner = s.turn) (h2 : f32Epsilon ≤ Real.sqrt (dx * dx + dy * dy))
    (h3 : s.pieces.length ≤ index) :
    s.shoot owner index dx dy force = .error .indexOutOfRange := by
  simp only [GameState.shoot]
  rw [if_neg (not_not.mpr h1), if_neg (not_lt.mpr h2), List.get?_eq_none.mpr h3]

/-- Any accepted call flips the turn and grows the board by one exactly
when it is a placement. -/
theorem applyCall_ok {s : GameState} {c : Call} {s' : GameState}
    (h : applyCall s c = .ok s') :
    s'.turn = 1 - s.turn ∧
      s'.pieces.length = s.pieces.length + (if c.isPlace then 1 else 0) := by
  cases c with
  | place owner x y radius =>
    obtain ⟨-, -, -, rfl⟩ := GameState.place_ok h
    simp [Call.isPlace]
  | shoot owner index dx dy force =>
    obtain ⟨-, -, piece, -, -, rfl⟩ := GameState.shoot_ok h
    simp [Call.isPlace]

/-- Turn accounting over a run: starting from a turn value that is 0 or 1,
the final turn is the initial turn advanced once per accepted call,
modulo 2. -/
theorem runCalls_turn :
    ∀ (cs : List Call) (s : GameState), s.turn ≤ 1 →
      (runCalls s cs).1.turn = (s.turn + (runCalls s cs).2.1) % 2 := by
  intro cs
  induction cs with
  | nil =>
    intro s hs
    simp only [runCalls]
    omega
  | cons c cs ih =>
    intro s hs
    rcases h : applyCall s c with r | s'
    · simp only [runCalls, h]
      exact ih s hs
    · obtain ⟨ht, -⟩ := applyCall_ok h
      have hs' : s'.turn ≤ 1 := by omega
      have := ih s' hs'
      simp only [runCalls, h]
      omega

/-- Board-size accounting over a run: the board grows exactly by the number
of accepted `place` calls. -/
theorem runCalls_length :
    ∀ (cs : List Call) (s : GameState),
      (runCalls s cs).1.pieces.length = s.pieces.length + (runCalls s cs).2.2 := by
  intro cs
  induction cs with
  | nil =>
    intro s
    simp [runCalls]
  | cons c cs ih =>
    intro s
    rcases h : applyCall s c with r | s'
    · simp only [runCalls, h]
      exact ih s
    · obtain ⟨-, hl⟩ := applyCall_ok h
      have := ih s'
      simp only [runCalls, h]
      omega

/-- Numeric evaluation: a (1,0) direction has length 1. -/
theorem sqrt_one_zero : Real.sqrt ((1 : ℝ) * 1 + 0 * 0) = 1 := by
  rw [show ((1 : ℝ) * 1 + 0 * 0) = 1 by norm_num, Real.sqrt_one]

/-- Numeric evaluation: a (0,0) direction has length 0. -/
theorem sqrt_zero_zero : Real.sqrt ((0 : ℝ) * 0 + 0 * 0) = 0 := by
  rw [show ((0 : ℝ) * 0 + 0 * 0) = 0 by norm_num, Real.sqrt_zero]

/-- Numeric evaluation: a (3,4) direction has length 5. -/
theorem sqrt_three_four : Real.sqrt ((3 : ℝ) * 3 + 4 * 4) = 5 := by
  rw [show ((3 : ℝ) * 3 + 4 * 4) = 5 ^ 2 by norm_num, Real.sqrt_sq (by norm_num : (0:ℝ) ≤ 5)]

/-- `f32::EPSILON` is at most 1. -/
theorem f32Epsilon_le_one : f32Epsilon ≤ 1 := by
  rw [f32Epsilon]
  norm_num

/-- `f32::EPSILON` is positive. -/
theorem f32Epsilon_pos : 0 < f32Epsilon := by
  rw [f32Epsilon]
  norm_num

/-- C1 (counterexample): an undecodable line (`HELLO`) from the player
whose turn it is does get a reply over the wire — the reply list of the
session step is not empty, refuting the claimed silence. -/
theorem C1_counterexample : (sessionStep GameState.new 0 "HELLO").2 ≠ [] := by
  have h : sessionStep GameState.new 0 "HELLO" =
      (GameState.new, [(0, OutMsg.error "unrecognised command")]) := rfl
  rw [h]
  simp

/-- C1 (amended): a line from the player whose turn it is that fails to
decode is logged as `InvalidCmd` and answered with exactly one line,
`ERROR unrecognised command`, to the sender only; the game state is
unchanged. -/
theorem C1_thm (st : GameState) (player : ℕ) (line : String)
    (hturn : player = st.turn) (hparse : ClientCmd.parse (trimStr line) = none) :
    sessionStep st player line = (st, [(player, OutMsg.error "unrecognised command")]) := by
  simp only [sessionStep, decodeApply, hparse, Rejection.msg]
  rw [if_neg (not_not.mpr hturn)]

/-- C1 (witness): the amended behaviour at the fresh state and the line
`HELLO`. -/
theorem C1_witness :
    ((0 : ℕ) = GameState.new.turn ∧ ClientCmd.parse (trimStr "HELLO") = none) ∧
      sessionStep GameState.new 0 "HELLO" =
        (GameState.new, [(0, OutMsg.error "unrecognised command")]) :=
  ⟨⟨rfl, rfl⟩, C1_thm GameState.new 0 "HELLO" rfl rfl⟩

/-- C2 (counterexample): a shoot by the player at turn with an
out-of-range index but `dx = dy = 0` is rejected with `ZeroDirection`,
not `IndexOutOfRange` — the zero-direction check is decided first. -/
theorem C2_counterexample :
    GameState.new.shoot 0 5 0 0 1 = .error .zeroDirection ∧
      Rejection.zeroDirection ≠ Rejection.indexOutOfRange := by
  refine ⟨GameState.shoot_zeroDirection_of rfl ?_, by decide⟩
  rw [sqrt_zero_zero]
  exact f32Epsilon_pos

/-- C2 (amended): with owner equal to the current turn and
`index ≥ pieces.len()`, the result is `IndexOutOfRange` for every force
and every direction that passes the zero-direction check
(`sqrt(dx²+dy²) ≥ ε`); the zero-direction check is decided before the
index-range check, so a near-zero direction yields `ZeroDirection`
instead; the index-range check is still decided before ownership (no
ownership hypothesis is needed). -/
theorem C2_thm (s : GameState) (owner index : ℕ) (dx dy force : ℝ)
    (h1 : owner = s.turn) (h3 : s.pieces.length ≤ index) :
    (f32Epsilon ≤ Real.sqrt (dx * dx + dy * dy) →
        s.shoot owner index dx dy force = .error .indexOutOfRange) ∧
      (Real.sqrt (dx * dx + dy * dy) < f32Epsilon →
        s.shoot owner index dx dy force = .error .zeroDirection) :=
  ⟨fun h2 => GameState.shoot_indexOutOfRange_of h1 h2 h3,
   fun h2 => GameState.shoot_zeroDirection_of h1 h2⟩

/-- C2 (witness): the amended behaviour at the fresh state, index 0,
direction (1,0). -/
theorem C2_witness :
    ((0 : ℕ) = GameState.new.turn ∧ GameState.new.pieces.length ≤ 0) ∧
      (f32Epsilon ≤ Real.sqrt ((1 : ℝ) * 1 + 0 * 0) →
          GameState.new.shoot 0 0 1 0 1 = .error .indexOutOfRange) ∧
        (Real.sqrt ((1 : ℝ) * 1 + 0 * 0) < f32Epsilon →
          GameState.new.shoot 0 0 1 0 1 = .error .zeroDirection) :=
  ⟨⟨rfl, Nat.le_refl 0⟩, C2_thm GameState.new 0 0 1 0 1 rfl (Nat.le_refl 0)⟩

/-- C9: a line from the player whose turn it is not is answered
`ERROR not your turn` to that player alone, whatever the line's content
(the turn check precedes decoding), and the state is unchanged. -/
theorem C9_thm (st : GameState) (player : ℕ) (line : String)
    (h : player ≠ st.turn) :
    sessionStep st player line = (st, [(player, OutMsg.error "not your turn")]) := by
  simp only [sessionStep]
  rw [if_pos h]

/-- C9 (witness): the out-of-turn reply at the fresh state for player 1
sending an empty (undecodable) line. -/
theorem C9_witness :
    ((1 : ℕ) ≠ GameState.new.turn) ∧
      sessionStep GameState.new 1 "" = (GameState.new, [(1, OutMsg.error "not your turn")]) :=
  ⟨by decide, C9_thm GameState.new 1 "" (by decide)⟩

/-- C3: starting from the fresh state, the turn is 0 and after any
sequence of calls it equals the number of accepted calls modulo 2 — it
flips on every accepted call and is untouched by rejected ones, so over
the accepted calls it strictly alternates 0, 1, 0, 1, …. -/
theorem C3_thm (cs : List Call) :
    GameState.new.turn = 0 ∧
      (runCalls GameState.new cs).1.turn = (runCalls GameState.new cs).2.1 % 2 := by
  refine ⟨rfl, ?_⟩
  have h := runCalls_turn cs GameState.new (by simp [GameState.new])
  simpa [GameState.new] using h

/-- C4: whenever the processed line is rejected — sent out of turn, or
failing one of the decode/place/shoot checks — the session's state after
the iteration is exactly the state before it. -/
theorem C4_thm (st : GameState) (player : ℕ) (line : String)
    (h : player ≠ st.turn ∨ ∃ r, decodeApply st player (trimStr line) = .error r) :
    (sessionStep st player line).1 = st := by
  simp only [sessionStep]
  rcases h with h | ⟨r, hr⟩
  · rw [if_pos h]
  · by_cases ht : player ≠ st.turn
    · rw [if_pos ht]
    · rw [if_neg ht, hr]

/-- C4 (witness): a `PLACE` with radius 0 from the player at turn is
rejected (`NonPositiveRadius`) and leaves the fresh state unchanged. -/
theorem C4_witness :
    ((0 : ℕ) ≠ GameState.new.turn ∨
        ∃ r, decodeApply GameState.new 0 (trimStr "PLACE 0 0 0") = .error r) ∧
      (sessionStep GameState.new 0 "PLACE 0 0 0").1 = GameState.new := by
  have hq : ((1 * (((0:ℕ) : ℚ) + ((0:ℕ) : ℚ) / 10 ^ (0:ℕ)) : ℚ) : ℝ) = 0 := by
    push_cast
    norm_num
  have hp : ClientCmd.parse (trimStr "PLACE 0 0 0") =
      some (.place (1 * (((0:ℕ) : ℚ) + ((0:ℕ) : ℚ) / 10 ^ (0:ℕ)))
        (1 * (((0:ℕ) : ℚ) + ((0:ℕ) : ℚ) / 10 ^ (0:ℕ)))
        (1 * (((0:ℕ) : ℚ) + ((0:ℕ) : ℚ) / 10 ^ (0:ℕ)))) := rfl
  have hd : decodeApply GameState.new 0 (trimStr "PLACE 0 0 0") =
      .error .nonPositiveRadius := by
    simp only [decodeApply, hp]
    unfold GameState.place
    rw [if_neg (show ¬((0:ℕ) ≠ GameState.new.turn) by decide), if_pos (by rw [hq])]
  exact ⟨Or.inr ⟨_, hd⟩, C4_thm GameState.new 0 "PLACE 0 0 0" (Or.inr ⟨_, hd⟩)⟩

/-- C5: with the turn and radius checks passing, a `place` is rejected
with `Overlap` iff some existing piece is strictly closer than the sum of
radii; when every existing piece is at distance at least the sum of radii
— boundary touching included — the placement is accepted. -/
theorem C5_thm (s : GameState) (owner : ℕ) (x y radius : ℝ)
    (h1 : owner = s.turn) (h2 : 0 < radius) :
    (s.place owner x y radius = .error .overlap ↔
        ∃ p ∈ s.pieces, Real.sqrt ((p.x - x) ^ 2 + (p.y - y) ^ 2) < p.radius + radius) ∧
      ((∀ p ∈ s.pieces, p.radius + radius ≤ Real.sqrt ((p.x - x) ^ 2 + (p.y - y) ^ 2)) →
        s.place owner x y radius = .ok ⟨s.pieces ++ [⟨owner, x, y, radius⟩], 1 - s.turn⟩) :=
  ⟨GameState.place_overlap_iff h1 h2, fun h3 => GameState.place_ok_of h1 h2 h3⟩

/-- C5 (witness): on a board with one piece at (0,0) of radius 1, player 1
placing at (3,0) with radius 2 touches it exactly (distance 3 = 1 + 2). -/
theorem C5_witness :
    ((1 : ℕ) = (⟨[⟨0, 0, 0, 1⟩], 1⟩ : GameState).turn ∧ (0 : ℝ) < 2) ∧
      (((⟨[⟨0, 0, 0, 1⟩], 1⟩ : GameState).place 1 3 0 2 = .error .overlap ↔
          ∃ p ∈ (⟨[⟨0, 0, 0, 1⟩], 1⟩ : GameState).pieces,
            Real.sqrt ((p.x - 3) ^ 2 + (p.y - 0) ^ 2) < p.radius + 2) ∧
        ((∀ p ∈ (⟨[⟨0, 0, 0, 1⟩], 1⟩ : GameState).pieces,
            p.radius + 2 ≤ Real.sqrt ((p.x - 3) ^ 2 + (p.y - 0) ^ 2)) →
          (⟨[⟨0, 0, 0, 1⟩], 1⟩ : GameState).place 1 3 0 2 =
            .ok ⟨(⟨[⟨0, 0, 0, 1⟩], 1⟩ : GameState).pieces ++ [⟨1, 3, 0, 2⟩],
              1 - (⟨[⟨0, 0, 0, 1⟩], 1⟩ : GameState).turn⟩)) :=
  ⟨⟨rfl, by norm_num⟩, C5_thm ⟨[⟨0, 0, 0, 1⟩], 1⟩ 1 3 0 2 rfl (by norm_num)⟩

/-- C6: for an in-turn shoot at a valid, owned index: a direction below
the epsilon fails with `ZeroDirection` whatever the force (in particular
`dx = dy = 0`); otherwise the target piece moves to its old position plus
the normalised direction scaled by the force, and every other index is
unchanged. -/
theorem C6_thm (s : GameState) (owner index j : ℕ) (dx dy force : ℝ) (piece : Piece)
    (h1 : owner = s.turn) (hg : s.pieces.get? index = some piece)
    (h3 : piece.owner = owner) (hj : j ≠ index) :
    (Real.sqrt (dx * dx + dy * dy) < f32Epsilon →
        s.shoot owner index dx dy force = .error .zeroDirection) ∧
      (f32Epsilon ≤ Real.sqrt (dx * dx + dy * dy) →
        s.shoot owner index dx dy force =
            .ok ⟨s.pieces.set index
                  { piece with
                      x := piece.x + dx / Real.sqrt (dx * dx + dy * dy) * force,
                      y := piece.y + dy / Real.sqrt (dx * dx + dy * dy) * force },
                1 - s.turn⟩ ∧
          (s.pieces.set index
              { piece with
                  x := piece.x + dx / Real.sqrt (dx * dx + dy * dy) * force,
                  y := piece.y + dy / Real.sqrt (dx * dx + dy * dy) * force }).get? j =
            s.pieces.get? j) := by
  refine ⟨fun h2 => GameState.shoot_zeroDirection_of h1 h2, fun h2 => ?_⟩
  exact ⟨GameState.shoot_ok_of h1 h2 hg h3, List.get?_set_ne _ _ (Ne.symm hj)⟩

/-- C6 (witness): shooting the only piece of a one-piece board with
direction (3,4) and force 10 moves it by (6,8); index 1 is unchanged. -/
theorem C6_witness :
    ((0 : ℕ) = (⟨[⟨0, 0, 0, 1⟩], 0⟩ : GameState).turn ∧
        (⟨[⟨0, 0, 0, 1⟩], 0⟩ : GameState).pieces.get? 0 = some ⟨0, 0, 0, 1⟩ ∧
        (⟨(0:ℕ), (0:ℝ), (0:ℝ), (1:ℝ)⟩ : Piece).owner = 0 ∧ (1 : ℕ) ≠ 0) ∧
      ((Real.sqrt ((3 : ℝ) * 3 + 4 * 4) < f32Epsilon →
          (⟨[⟨0, 0, 0, 1⟩], 0⟩ : GameState).shoot 0 0 3 4 10 = .error .zeroDirection) ∧
        (f32Epsilon ≤ Real.sqrt ((3 : ℝ) * 3 + 4 * 4) →
          (⟨[⟨0, 0, 0, 1⟩], 0⟩ : GameState).shoot 0 0 3 4 10 =
              .ok ⟨[(⟨0, 0, 0, 1⟩ : Piece)].set 0
                    { (⟨0, 0, 0, 1⟩ : Piece) with
                        x := 0 + 3 / Real.sqrt ((3 : ℝ) * 3 + 4 * 4) * 10,
                        y := 0 + 4 / Real.sqrt ((3 : ℝ) * 3 + 4 * 4) * 10 },
                  1 - (⟨[⟨0, 0, 0, 1⟩], 0⟩ : GameState).turn⟩ ∧
            ([(⟨0, 0, 0, 1⟩ : Piece)].set 0
                  { (⟨0, 0, 0, 1⟩ : Piece) with
                      x := 0 + 3 / Real.sqrt ((3 : ℝ) * 3 + 4 * 4) * 10,
                      y := 0 + 4 / Real.sqrt ((3 : ℝ) * 3 + 4 * 4) * 10 }).get? 1 =
              [(⟨0, 0, 0, 1⟩ : Piece)].get? 1)) :=
  ⟨⟨rfl, rfl, rfl, by decide⟩,
    C6_thm ⟨[⟨0, 0, 0, 1⟩], 0⟩ 0 0 1 3 4 10 ⟨0, 0, 0, 1⟩ rfl rfl rfl (by decide)⟩

/-- The client's `Cmd::parse` only ever emits a shoot whose force passed
the `force > 0` check. -/
theorem CmdC.parse_shoot_force_pos {raw : String} {i : ℕ} {dx dy force : ℚ}
    (h : CmdC.parse raw = .ok (.shoot i dx dy force)) : 0 < force := by
  unfold CmdC.parse at h
  split at h
  · exact Except.noConfusion h
  · dsimp only at h
    split_ifs at h with hk1 hk2
    · split at h
      · exact Except.noConfusion h
      · split at h
        · exact Except.noConfusion h
        · split at h
          · exact Except.noConfusion h
          · split_ifs at h with hr
            simp at h
    · split at h
      · exact Except.noConfusion h
      · split at h
        · exact Except.noConfusion h
        · split at h
          · exact Except.noConfusion h
          · split at h
            · exact Except.noConfusion h
            · split at h
              · exact Except.noConfusion h
              · split_ifs at h with hf
                simp only [Except.ok.injEq, CmdC.shoot.injEq] at h
                obtain ⟨-, -, -, rfl⟩ := h
                exact not_le.mp hf

/-- C7: the rendered board's length always equals the number of accepted
`place` calls, and an accepted shoot keeps the piece count and every
piece's owner (hence its identity at every index). -/
theorem C7_thm (cs : List Call) (s : GameState) (owner index j : ℕ) (dx dy force : ℝ)
    (s' : GameState) (h : s.shoot owner index dx dy force = .ok s') :
    ((runCalls GameState.new cs).1.render_state).length = (runCalls GameState.new cs).2.2 ∧
      s'.pieces.length = s.pieces.length ∧
      (s'.pieces.get? j).map Piece.owner = (s.pieces.get? j).map Piece.owner := by
  obtain ⟨-, -, piece, hg, -, rfl⟩ := GameState.shoot_ok h
  refine ⟨?_, ?_, ?_⟩
  · have hlen := runCalls_length cs GameState.new
    simp only [GameState.render_state, List.length_map]
    simpa [GameState.new] using hlen
  · simp
  · by_cases hj : index = j
    · subst hj
      rw [List.get?_set_eq, hg]
      rfl
    · rw [List.get?_set_ne _ _ hj]

/-- C7 (witness): shooting the only piece of a one-piece board with
direction (1,0) and force 2 keeps one piece with owner 0 at index 0, and
an empty run has as many rendered pieces as accepted placements (none). -/
theorem C7_witness :
    ((⟨[⟨0, 0, 0, 1⟩], 0⟩ : GameState).shoot 0 0 1 0 2 = .ok ⟨[⟨0, 2, 0, 1⟩], 1⟩) ∧
      ((runCalls GameState.new []).1.render_state).length = (runCalls GameState.new []).2.2 ∧
      (⟨[⟨0, 2, 0, 1⟩], 1⟩ : GameState).pieces.length =
          (⟨[⟨0, 0, 0, 1⟩], 0⟩ : GameState).pieces.length ∧
      ((⟨[⟨0, 2, 0, 1⟩], 1⟩ : GameState).pieces.get? 1).map Piece.owner =
          ((⟨[⟨0, 0, 0, 1⟩], 0⟩ : GameState).pieces.get? 1).map Piece.owner := by
  have h2 : f32Epsilon ≤ Real.sqrt ((1 : ℝ) * 1 + 0 * 0) := by
    rw [sqrt_one_zero]
    exact f32Epsilon_le_one
  have h : (⟨[⟨0, 0, 0, 1⟩], 0⟩ : GameState).shoot 0 0 1 0 2 = .ok ⟨[⟨0, 2, 0, 1⟩], 1⟩ := by
    rw [@GameState.shoot_ok_of ⟨[⟨0, 0, 0, 1⟩], 0⟩ 0 0 1 0 2 ⟨0, 0, 0, 1⟩ rfl h2 rfl rfl]
    rw [sqrt_one_zero]
    norm_num
  exact ⟨h, C7_thm [] ⟨[⟨0, 0, 0, 1⟩], 0⟩ 0 0 1 1 0 2 ⟨[⟨0, 2, 0, 1⟩], 1⟩ h⟩

/-- C10: the server never checks the force: once the turn, direction,
index and ownership checks pass, any real force is accepted — force 0
produces an accepted move whose piece does not move yet whose turn flips,
and a negative force displaces the piece by a negative multiple of
(dx, dy) — while the client's own parser only emits shoots with positive
force. -/
theorem C10_thm (s : GameState) (owner index : ℕ) (dx dy force : ℝ) (piece : Piece)
    (raw : String) (i : ℕ) (qdx qdy qforce : ℚ)
    (h1 : owner = s.turn) (hg : s.pieces.get? index = some piece) (h3 : piece.owner = owner)
    (h2 : f32Epsilon ≤ Real.sqrt (dx * dx + dy * dy)) :
    (∃ s', s.shoot owner index dx dy force = .ok s' ∧ s'.turn = 1 - s.turn) ∧
      (force = 0 →
        s.shoot owner index dx dy force = .ok ⟨s.pieces.set index piece, 1 - s.turn⟩) ∧
      (force < 0 →
        ∃ c : ℝ, c < 0 ∧
          s.shoot owner index dx dy force =
            .ok ⟨s.pieces.set index
                  { piece with x := piece.x + c * dx, y := piece.y + c * dy }, 1 - s.turn⟩) ∧
      (CmdC.parse raw = .ok (.shoot i qdx qdy qforce) → 0 < qforce) := by
  have hlen0 : (0 : ℝ) < Real.sqrt (dx * dx + dy * dy) := lt_of_lt_of_le f32Epsilon_pos h2
  refine ⟨⟨_, GameState.shoot_ok_of h1 h2 hg h3, rfl⟩, ?_, ?_, CmdC.parse_shoot_force_pos⟩
  · rintro rfl
    rw [GameState.shoot_ok_of h1 h2 hg h3]
    simp only [mul_zero, add_zero]
  · intro hf
    refine ⟨force / Real.sqrt (dx * dx + dy * dy), div_neg_of_neg_of_pos hf hlen0, ?_⟩
    rw [GameState.shoot_ok_of h1 h2 hg h3]
    have e1 : dx / Real.sqrt (dx * dx + dy * dy) * force =
        force / Real.sqrt (dx * dx + dy * dy) * dx := by ring
    have e2 : dy / Real.sqrt (dx * dx + dy * dy) * force =
        force / Real.sqrt (dx * dx + dy * dy) * dy := by ring
    rw [e1, e2]

/-- C10 (witness): on a one-piece board, player 0 may shoot piece 0 with
direction (1,0) and force −2; the client parser conjunct is instanced at
the line `SHOOT 0 1 0 2`. -/
theorem C10_witness :
    ((0 : ℕ) = (⟨[⟨0, 0, 0, 1⟩], 0⟩ : GameState).turn ∧
        (⟨[⟨0, 0, 0, 1⟩], 0⟩ : GameState).pieces.get? 0 = some ⟨0, 0, 0, 1⟩ ∧
        (⟨(0:ℕ), (0:ℝ), (0:ℝ), (1:ℝ)⟩ : Piece).owner = 0 ∧
        f32Epsilon ≤ Real.sqrt ((1 : ℝ) * 1 + 0 * 0)) ∧
      ((∃ s', (⟨[⟨0, 0, 0, 1⟩], 0⟩ : GameState).shoot 0 0 1 0 (-2) = .ok s' ∧
          s'.turn = 1 - (⟨[⟨0, 0, 0, 1⟩], 0⟩ : GameState).turn) ∧
        ((-2 : ℝ) = 0 →
          (⟨[⟨0, 0, 0, 1⟩], 0⟩ : GameState).shoot 0 0 1 0 (-2) =
            .ok ⟨[(⟨0, 0, 0, 1⟩ : Piece)].set 0 ⟨0, 0, 0, 1⟩,
              1 - (⟨[⟨0, 0, 0, 1⟩], 0⟩ : GameState).turn⟩) ∧
        ((-2 : ℝ) < 0 →
          ∃ c : ℝ, c < 0 ∧
            (⟨[⟨0, 0, 0, 1⟩], 0⟩ : GameState).shoot 0 0 1 0 (-2) =
              .ok ⟨[(⟨0, 0, 0, 1⟩ : Piece)].set 0
                    { (⟨0, 0, 0, 1⟩ : Piece) with
                        x := (⟨(0:ℕ), (0:ℝ), (0:ℝ), (1:ℝ)⟩ : Piece).x + c * 1,
                        y := (⟨(0:ℕ), (0:ℝ), (0:ℝ), (1:ℝ)⟩ : Piece).y + c * 0 },
                  1 - (⟨[⟨0, 0, 0, 1⟩], 0⟩ : GameState).turn⟩) ∧
        (CmdC.parse "SHOOT 0 1 0 2" = .ok (.shoot 0 1 0 (-5)) → (0 : ℚ) < -5)) := by
  have h2 : f32Epsilon ≤ Real.sqrt ((1 : ℝ) * 1 + 0 * 0) := by
    rw [sqrt_one_zero]
    exact f32Epsilon_le_one
  exact ⟨⟨rfl, rfl, rfl, h2⟩,
    C10_thm ⟨[⟨0, 0, 0, 1⟩], 0⟩ 0 0 1 0 (-2) ⟨0, 0, 0, 1⟩ "SHOOT 0 1 0 2" 0 1 0 (-5)
      rfl rfl rfl h2⟩

/-- C8: serialising the one-piece board (owner 0, x = 1.0, y = 2.0,
radius = 0.5) with the server's `state_line` and decoding the resulting
line with the client's `STATE` parser yields exactly one piece with
owner 0, x = 1, y = 2, radius = 1/2 — the 3-decimal rendering of these
values is lossless. -/
theorem C8_thm :
    decodeStateLine (state_lineQ [⟨0, 1, 2, 1/2⟩]) = some [⟨0, 0, 1, 2, 1/2⟩] := by
  have e1 : fmt3 (1 : ℚ) = "1.000" := by
    have h : round ((1 : ℚ) * 1000) = 1000 := by norm_num [round_eq]
    rw [fmt3, h]
    rfl
  have e2 : fmt3 (2 : ℚ) = "2.000" := by
    have h : round ((2 : ℚ) * 1000) = 2000 := by norm_num [round_eq]
    rw [fmt3, h]
    rfl
  have e3 : fmt3 (1/2 : ℚ) = "0.500" := by
    have h : round ((1/2 : ℚ) * 1000) = 500 := by norm_num [round_eq]
    rw [fmt3, h]
    rfl
  have hl : state_lineQ [⟨0, 1, 2, 1/2⟩] = "STATE 1 0 1.000 2.000 0.500\n" := by
    simp only [state_lineQ, List.map_cons, List.map_nil, PieceQ.display, joinSpace, e1, e2, e3,
      List.length_cons, List.length_nil]
    rfl
  rw [hl]
  have hstrip : stripPrefixStr "STATE " (trimStr "STATE 1 0 1.000 2.000 0.500\n") =
      some "1 0 1.000 2.000 0.500" := rfl
  have hparse : BoardState.parse "1 0 1.000 2.000 0.500" =
      some [⟨0, 0, (1 : ℚ) * (((1:ℕ) : ℚ) + ((0:ℕ) : ℚ) / 10 ^ (3:ℕ)),
        (1 : ℚ) * (((2:ℕ) : ℚ) + ((0:ℕ) : ℚ) / 10 ^ (3:ℕ)),
        (1 : ℚ) * (((0:ℕ) : ℚ) + ((500:ℕ) : ℚ) / 10 ^ (3:ℕ))⟩] := rfl
  simp only [decodeStateLine, hstrip, hparse]
  norm_num

end SebMulGame
